import Mathlib

/-!
Verification of the Resume Normalization Engine of the ResumeBot repository
(`src/config/writer/finalize_resume.py`).

The engine converts a loosely-typed JSON record (as produced by `json.loads`)
into a canonical JSON Resume document.  We shallowly embed the Python module:

* `JValue` models the values `json.loads` can produce (objects are
  association lists in source order; Python `dict` semantics - last duplicate
  key wins, first-occurrence ordering - are provided by `pyGet`/`dictItems`);
* string helpers (`pyStrip`, `pyLower`, `pyTitle`, ...) model the Python
  `str` methods for ASCII text, which is the alphabet the module manipulates;
* the two regular expressions of the module are embedded as executable
  scanners with the exact semantics of CPython's `re` module, including the
  fact that the character class `[--—]` in `_DATE_SPLIT_RE` denotes the
  *codepoint range* U+002D..U+2014 (hyphen through em dash), not a three
  character set;
* fallible Python code (statements that can raise `TypeError` /
  `AttributeError` on loosely-typed input) returns `Except PyErr`.
-/

/-- A value produced by Python's `json.loads`: `null`, booleans, integers,
strings, arrays, and objects.  Objects keep their key/value pairs in source
order. -/
inductive JValue where
  | null : JValue
  | bool : Bool → JValue
  | num : Int → JValue
  | str : String → JValue
  | arr : List JValue → JValue
  | obj : List (String × JValue) → JValue

/-- Exceptions the embedded Python code can raise. -/
inductive PyErr where
  | typeError : PyErr
  | attributeError : PyErr
deriving DecidableEq, Repr

/-! ## Python string primitives (ASCII) -/

/-- Python whitespace for `str.strip`, `str.split()` and `\s` (ASCII part). -/
def pyIsSpace (c : Char) : Bool :=
  (c == ' ') || (c == '\t') || (c == '\n') || (c == '\r') ||
  (c == '\x0b') || (c == '\x0c')

/-- `str.strip()` on a character list. -/
def stripList (l : List Char) : List Char :=
  ((l.dropWhile pyIsSpace).reverse.dropWhile pyIsSpace).reverse

/-- Python `str.strip()`. -/
def pyStrip (s : String) : String :=
  String.mk (stripList s.data)

/-- Python `str.lower()` (ASCII case mapping). -/
def pyLower (s : String) : String :=
  String.mk (s.data.map Char.toLower)

/-- One step of Python `str.title()`: a cased (alphabetic) character is
uppercased when the previous character was not cased, lowercased otherwise. -/
def titleGo : List Char → Bool → List Char
  | [], _ => []
  | c :: cs, prevCased =>
    let cased := c.isAlpha
    (if cased then (if prevCased then c.toLower else c.toUpper) else c)
      :: titleGo cs cased

/-- Python `str.title()`. -/
def pyTitle (s : String) : String :=
  String.mk (titleGo s.data false)

/-- `listPre needle hay` : `needle` is a prefix of `hay`. -/
def listPre : List Char → List Char → Bool
  | [], _ => true
  | _ :: _, [] => false
  | c :: cs, h :: hs => (c == h) && listPre cs hs

/-- `listSub needle hay` : `needle` occurs as a contiguous run in `hay`
(Python's `needle in hay`). -/
def listSub (needle : List Char) : List Char → Bool
  | [] => listPre needle []
  | h :: hs => listPre needle (h :: hs) || listSub needle hs

/-- Python's substring test `sub in s`. -/
def hasSub (s sub : String) : Bool :=
  listSub sub.data s.data

/-- Split a character list at every occurrence of character `sep`, keeping
empty pieces (Python `str.split(sep)` for a one-character separator). -/
def splitCharGo (sep : Char) : List Char → List Char → List String
  | [], acc => [String.mk acc.reverse]
  | c :: cs, acc =>
    if c == sep then String.mk acc.reverse :: splitCharGo sep cs []
    else splitCharGo sep cs (c :: acc)

/-- Python `s.split(sep)` for a one-character separator. -/
def sSplitChar (sep : Char) (s : String) : List String :=
  splitCharGo sep s.data []

/-- Python `s.split()` (no argument): split on whitespace runs, dropping
empty pieces. -/
def splitWsGo : List Char → List Char → List String
  | [], acc => if acc.isEmpty then [] else [String.mk acc.reverse]
  | c :: cs, acc =>
    if pyIsSpace c then
      if acc.isEmpty then splitWsGo cs []
      else String.mk acc.reverse :: splitWsGo cs []
    else splitWsGo cs (c :: acc)

def pySplitWs (s : String) : List String :=
  splitWsGo s.data []

/-- Locate the first occurrence of `"://"` and return the characters after
it (for Python's `url.split("://", 1)[-1]`). -/
def findScheme : List Char → Option (List Char)
  | ':' :: '/' :: '/' :: rest => some rest
  | _ :: cs => findScheme cs
  | [] => none

/-- Python `url.split("://", 1)[-1]`: everything after the first `"://"`,
or the whole string when there is none. -/
def afterScheme (s : String) : String :=
  match findScheme s.data with
  | some r => String.mk r
  | none => s

/-- A `\w` word character as matched by `re.sub(r"[^\w]", "", ...)`
(ASCII letters, digits and underscore). -/
def isWordChar (c : Char) : Bool :=
  c.isAlphanum || c == '_'

/-- Leftmost match of `re.search(r"\d{4}", ...)`: the first run of four
consecutive ASCII digits. -/
def find4Digits : List Char → Option String
  | c1 :: c2 :: c3 :: c4 :: rest =>
    if c1.isDigit && c2.isDigit && c3.isDigit && c4.isDigit then
      some (String.mk [c1, c2, c3, c4])
    else find4Digits (c2 :: c3 :: c4 :: rest)
  | _ => none

/-! ## Python dynamic-value helpers -/

/-- Python truthiness of a JSON value. -/
def pyTruthy : JValue → Bool
  | .null => false
  | .bool b => b
  | .num n => n != 0
  | .str s => s != ""
  | .arr xs => !xs.isEmpty
  | .obj kvs => !kvs.isEmpty

/-- `dict.get`: the value of the *last* binding of a key (the value a Python
dict built from the JSON text would hold), or `none`. -/
def pyGet : List (String × JValue) → String → Option JValue
  | [], _ => none
  | (k, v) :: rest, key =>
    match pyGet rest key with
    | some r => some r
    | none => if k == key then some v else none

/-- Insert one binding with Python `dict` semantics: an existing key keeps
its position and gets the new value, a new key is appended. -/
def insertKV : List (String × JValue) → String → JValue → List (String × JValue)
  | [], k, v => [(k, v)]
  | (k0, v0) :: rest, k, v =>
    if k0 == k then (k0, v) :: rest else (k0, v0) :: insertKV rest k v

/-- The items of the Python dict built from an association list in source
order (first-occurrence ordering, last value wins). -/
def dictItems (kvs : List (String × JValue)) : List (String × JValue) :=
  kvs.foldl (fun acc kv => insertKV acc kv.1 kv.2) []

/-- `d.get(k)` with default `None`. -/
def getOrNull (kvs : List (String × JValue)) (k : String) : JValue :=
  (pyGet kvs k).getD .null

/-- Python `v or d`. -/
def orDefault (v d : JValue) : JValue :=
  if pyTruthy v then v else d

/-- Escape one string for Python `repr` with quote character `q`. -/
def reprEscape (q : Char) : List Char → List Char
  | [] => []
  | c :: cs =>
    (if c == '\\' then ['\\', '\\']
     else if c == q then ['\\', q]
     else if c == '\n' then ['\\', 'n']
     else if c == '\r' then ['\\', 'r']
     else if c == '\t' then ['\\', 't']
     else [c]) ++ reprEscape q cs

/-- Python `repr` of a string: single-quoted unless the string contains a
single quote but no double quote. -/
def quoteRepr (s : String) : String :=
  let sq : Char := Char.ofNat 39
  let dq : Char := '"'
  if s.data.contains sq && !(s.data.contains dq) then
    String.mk (dq :: (reprEscape dq s.data ++ [dq]))
  else
    String.mk (sq :: (reprEscape sq s.data ++ [sq]))

mutual

/-- Python `repr` of a JSON value (`str` falls back to this for non-string
values). -/
def pyRepr : JValue → String
  | .null => "None"
  | .bool true => "True"
  | .bool false => "False"
  | .num n => toString n
  | .str s => quoteRepr s
  | .arr xs => "[" ++ pyReprItems xs ++ "]"
  | .obj kvs => "\x7b" ++ pyReprFields kvs ++ "\x7d"

def pyReprItems : List JValue → String
  | [] => ""
  | [x] => pyRepr x
  | x :: y :: rest => pyRepr x ++ ", " ++ pyReprItems (y :: rest)

def pyReprFields : List (String × JValue) → String
  | [] => ""
  | [(k, v)] => quoteRepr k ++ ": " ++ pyRepr v
  | (k, v) :: kv2 :: rest =>
    quoteRepr k ++ ": " ++ pyRepr v ++ ", " ++ pyReprFields (kv2 :: rest)

end

/-- Python `str(v)` for a JSON value. -/
def pyStr : JValue → String
  | .str s => s
  | v => pyRepr v

/-! ## The two regular expressions of the module

`_DATE_SPLIT_RE = re.compile(r"\s*[--—]\s*")`: the character class consists
of HYPHEN-MINUS, HYPHEN-MINUS, EM DASH, which the `re` engine parses as the
codepoint *range* U+002D..U+2014.  The pattern therefore matches one
character of that range surrounded by optional whitespace.

`re.split(r"\s+in\s+", ..., flags=re.IGNORECASE)` matches the word "in"
surrounded by whitespace on both sides.
-/

/-- A character matched by the class `[--—]`: the codepoint range
U+002D (hyphen-minus) .. U+2014 (em dash). -/
def isDashCls (c : Char) : Bool :=
  45 ≤ c.toNat && c.toNat ≤ 8212

/-- Try to match `\s*[--—]\s*` at the head of the list; on success return
the characters after the match.  (No whitespace character is inside the
class range, so the greedy runs never backtrack.) -/
def matchDashAt (l : List Char) : Option (List Char) :=
  match l.dropWhile pyIsSpace with
  | c :: cs => if isDashCls c then some (cs.dropWhile pyIsSpace) else none
  | [] => none

/-- `re.split(r"\s*[--—]\s*", ·)`, scanning left to right with a fuel
argument (any fuel above the list length gives the true result). -/
def splitDashGo : Nat → List Char → List Char → List String
  | 0, l, acc => [String.mk (acc.reverse ++ l)]
  | _ + 1, [], acc => [String.mk acc.reverse]
  | f + 1, c :: cs, acc =>
    match matchDashAt (c :: cs) with
    | some rest => String.mk acc.reverse :: splitDashGo f rest []
    | none => splitDashGo f cs (c :: acc)

/-- `_DATE_SPLIT_RE.split(s)`. -/
def reSplitDash (s : String) : List String :=
  splitDashGo (s.data.length + 1) s.data []

/-- Try to match `\s+in\s+` (case-insensitive) at the head of the list; on
success return the characters after the match. -/
def matchInAt (l : List Char) : Option (List Char) :=
  match l with
  | c :: cs =>
    if pyIsSpace c then
      match cs.dropWhile pyIsSpace with
      | i :: n :: d :: rest =>
        if (i.toLower == 'i') && (n.toLower == 'n') && pyIsSpace d then
          some (rest.dropWhile pyIsSpace)
        else none
      | _ => none
    else none
  | [] => none

/-- `re.split(r"\s+in\s+", ·, flags=re.IGNORECASE)` with fuel. -/
def splitInGo : Nat → List Char → List Char → List String
  | 0, l, acc => [String.mk (acc.reverse ++ l)]
  | _ + 1, [], acc => [String.mk acc.reverse]
  | f + 1, c :: cs, acc =>
    match matchInAt (c :: cs) with
    | some rest => String.mk acc.reverse :: splitInGo f rest []
    | none => splitInGo f cs (c :: acc)

/-- `re.split(r"\s+in\s+", s, flags=re.IGNORECASE)`. -/
def reSplitIn (s : String) : List String :=
  splitInGo (s.data.length + 1) s.data []

/-! ## The month-name table and date parsing -/

/-- `MONTH_MAP` of `finalize_resume.py`. -/
def MONTH_MAP : String → Option String
  | "jan" => some "01"
  | "january" => some "01"
  | "feb" => some "02"
  | "february" => some "02"
  | "mar" => some "03"
  | "march" => some "03"
  | "apr" => some "04"
  | "april" => some "04"
  | "may" => some "05"
  | "jun" => some "06"
  | "june" => some "06"
  | "jul" => some "07"
  | "july" => some "07"
  | "aug" => some "08"
  | "august" => some "08"
  | "sep" => some "09"
  | "sept" => some "09"
  | "september" => some "09"
  | "oct" => some "10"
  | "october" => some "10"
  | "nov" => some "11"
  | "november" => some "11"
  | "dec" => some "12"
  | "december" => some "12"
  | _ => none

/-- `_parse_month_year` on a string: parse `'Jun 2023'`-like text into
`(year, month)`, returning `("", "")` on failure. -/
def parse_month_year_s (text0 : String) : String × String :=
  let text := pyStrip text0
  if text = "" then ("", "")
  else
    match pySplitWs (String.mk (text.data.map (fun c => if c == ',' then ' ' else c))) with
    | t0 :: _ :: _ =>
      let monthRaw := pyLower (String.mk (t0.data.filter isWordChar))
      match find4Digits text.data with
      | none => ("", "")
      | some year =>
        match MONTH_MAP monthRaw with
        | none => ("", "")
        | some month => (year, month)
    | _ => ("", "")

/-- `_parse_month_year` (the Python function also accepts non-string
input, returning `("", "")`). -/
def parse_month_year : JValue → String × String
  | .str s => parse_month_year_s s
  | _ => ("", "")

/-- `re.search(r"present", s, re.IGNORECASE)` as a Boolean. -/
def containsPresent (s : String) : Bool :=
  hasSub (pyLower s) "present"

/-- `_parse_date_range`: best-effort parse of a date-range string into
`(startDate, endDate)`, each `'YYYY-MM'` or `''`. -/
def parse_date_range : JValue → String × String
  | .str dates0 =>
    let dates := pyStrip dates0
    if dates = "" then ("", "")
    else
      match reSplitDash dates with
      | [] => ("", "")
      | p0 :: restParts =>
        let startRaw := pyStrip p0
        let endRaw := match restParts with
          | p1 :: _ => pyStrip p1
          | [] => ""
        let sp := parse_month_year_s startRaw
        let startIso := if sp.1 ≠ "" ∧ sp.2 ≠ "" then sp.1 ++ "-" ++ sp.2 else ""
        let endIso :=
          if endRaw ≠ "" ∧ containsPresent endRaw = false then
            let ep := parse_month_year_s endRaw
            if ep.1 ≠ "" ∧ ep.2 ≠ "" then ep.1 ++ "-" ++ ep.2 else ""
          else ""
        (startIso, endIso)
  | _ => ("", "")

/-! ## The other leaf parsers -/

/-- `_parse_city_region`: split `'City, Region'` into `(city, region)`. -/
def parse_city_region : JValue → String × String
  | .str location =>
    match ((sSplitChar ',' location).map pyStrip).filter (fun p => p != "") with
    | [] => ("", "")
    | [p] => (p, "")
    | p0 :: p1 :: _ => (p0, p1)
  | _ => ("", "")

/-- A JSON Resume profile as returned by `_parse_link_profile`. -/
structure Profile where
  network : String
  username : String
  url : String

/-- The dict `_parse_link_profile` builds from a `Profile`. -/
def profileJ (p : Profile) : JValue :=
  .obj [("network", .str p.network), ("username", .str p.username),
        ("url", .str p.url)]

/-- `_parse_link_profile`: best-effort detection of LinkedIn / GitHub
profile links. -/
def parse_link_profile : JValue → Option Profile
  | .str url0 =>
    if pyStrip url0 = "" then none
    else
      let url := pyStrip url0
      let lowered := pyLower url
      let network :=
        if hasSub lowered "linkedin.com" then "LinkedIn"
        else if hasSub lowered "github.com" then "GitHub"
        else "Profile"
      let segments := (sSplitChar '/' (afterScheme url)).filter (fun s => s != "")
      let username := match segments.getLast? with
        | some s => s
        | none => ""
      some ⟨network, username, url⟩
  | _ => none

/-- `_split_degree_title`: split `'StudyType in Area'`. -/
def split_degree_title : JValue → String × String
  | .str title0 =>
    let title := pyStrip title0
    if title = "" then ("", "")
    else
      match reSplitIn title with
      | [] => (title, "")  -- unreachable: re.split never returns an empty list
      | [_] => (title, "")
      | p0 :: p1 :: _ => (pyStrip p0, pyStrip p1)
  | _ => ("", "")

/-! ## Iteration and field coercion -/

/-- `for x in v or []`: an empty list for falsy values, the elements for a
list, the one-character strings for a string, the keys for a dict, and a
`TypeError` for truthy non-iterable values (numbers, `True`). -/
def pyIterOrEmpty (v : JValue) : Except PyErr (List JValue) :=
  if pyTruthy v then
    match v with
    | .arr xs => .ok xs
    | .str s => .ok (s.data.map (fun c => JValue.str (String.mk [c])))
    | .obj kvs => .ok ((dictItems kvs).map (fun kv => JValue.str kv.1))
    | _ => .error .typeError
  else .ok []

/-- The field coercion `str(d.get(k) or "").strip()` used by every
converter. -/
def strField (kvs : List (String × JValue)) (k : String) : String :=
  match pyGet kvs k with
  | some v => if pyTruthy v then pyStrip (pyStr v) else ""
  | none => ""

/-- One bullet of `_bullet_texts`: a dict whose `"text"` value is a string
with non-empty strip survives. -/
def bulletText : JValue → Option String
  | .obj bkv =>
    match pyGet bkv "text" with
    | some (.str t) =>
      let t2 := pyStrip t
      if t2 = "" then none else some t2
    | _ => none
  | _ => none

/-- `_bullet_texts(entry)`: the stripped non-empty `"text"` strings of the
entry's `"bullets"` value (a `TypeError` when that value is truthy and not
iterable). -/
def bulletTexts (kvs : List (String × JValue)) : Except PyErr (List String) :=
  match pyIterOrEmpty (getOrNull kvs "bullets") with
  | .error e => .error e
  | .ok bs => .ok (bs.filterMap bulletText)

/-- `[str(t).strip() for t in tools if str(t).strip()]` over the entry's
`"tools"` value. -/
def toolKeywords (kvs : List (String × JValue)) : Except PyErr (List String) :=
  match pyIterOrEmpty (getOrNull kvs "tools") with
  | .error e => .error e
  | .ok ts => .ok ((ts.map (fun t => pyStrip (pyStr t))).filter (fun s => s != ""))

/-! ## Converters to JSON Resume -/

/-- `_convert_basics`: map the `basics` block to JSON Resume `basics`
(a dict, represented by its bindings in insertion order). -/
def convert_basics (v : JValue) : List (String × JValue) :=
  let kvs := match v with
    | .obj l => l
    | _ => []
  let name := strField kvs "name"
  let email := strField kvs "email"
  let phone := strField kvs "phone"
  let locationStr := strField kvs "location"
  let website := strField kvs "website"
  let linkedin := strField kvs "linkedin"
  let github := strField kvs "github"
  let cr := parse_city_region (.str locationStr)
  let profiles := [linkedin, github].filterMap (fun u => parse_link_profile (.str u))
  [("name", JValue.str name)]
  ++ (if email = "" then [] else [("email", JValue.str email)])
  ++ (if phone = "" then [] else [("phone", JValue.str phone)])
  ++ (if website = "" then [] else [("url", JValue.str website)])
  ++ (if cr.1 ≠ "" ∨ cr.2 ≠ "" then
        [("location", JValue.obj [("city", JValue.str cr.1), ("region", JValue.str cr.2)])]
      else [])
  ++ (if profiles.isEmpty then [] else [("profiles", JValue.arr (profiles.map profileJ))])

/-- One entry of `_convert_education`: non-dict entries are skipped, and an
entry whose converted dict is empty is dropped.  (The `gpa` field is read
by the source but never emitted.) -/
def eduBindings (kvs : List (String × JValue)) : List (String × JValue) :=
  let name := strField kvs "name"
  let title := strField kvs "title"
  let dates := strField kvs "dates"
  let locationStr := strField kvs "location"
  let sa := split_degree_title (.str title)
  let dr := parse_date_range (.str dates)
  (if name = "" then [] else [("institution", JValue.str name)])
  ++ (if sa.2 = "" then [] else [("area", JValue.str sa.2)])
  ++ (if sa.1 = "" then [] else [("studyType", JValue.str sa.1)])
  ++ (if dr.1 = "" then [] else [("startDate", JValue.str dr.1)])
  ++ (if dr.2 = "" then [] else [("endDate", JValue.str dr.2)])
  ++ (if locationStr = "" then [] else [("location", JValue.str locationStr)])

def eduEntry : JValue → Option JValue
  | .obj kvs =>
    let _gpa := strField kvs "gpa"
    if (eduBindings kvs).isEmpty then none else some (.obj (eduBindings kvs))
  | _ => none

/-- `_convert_education`. -/
def convert_education (v : JValue) : Except PyErr (List JValue) :=
  match pyIterOrEmpty v with
  | .error e => .error e
  | .ok entries => .ok (entries.filterMap eduEntry)

/-- One entry of `_convert_experience`; iterating a truthy non-iterable
`bullets` or `tools` value raises, in that source order. -/
def expBindings (kvs : List (String × JValue))
    (highlights toolKw : List String) : List (String × JValue) :=
  let company := strField kvs "name"
  let position := strField kvs "title"
  let locationStr := strField kvs "location"
  let dates := strField kvs "dates"
  let dr := parse_date_range (.str dates)
  (if company = "" then [] else [("name", JValue.str company)])
  ++ (if position = "" then [] else [("position", JValue.str position)])
  ++ (if locationStr = "" then [] else [("location", JValue.str locationStr)])
  ++ (if dr.1 = "" then [] else [("startDate", JValue.str dr.1)])
  ++ (if dr.2 = "" then [] else [("endDate", JValue.str dr.2)])
  ++ (if highlights.isEmpty then []
      else [("highlights", JValue.arr (highlights.map JValue.str))])
  ++ (if toolKw.isEmpty then []
      else [("keywords", JValue.arr (toolKw.map JValue.str))])

def expEntry : JValue → Except PyErr (Option JValue)
  | .obj kvs =>
    match bulletTexts kvs with
    | .error e => .error e
    | .ok highlights =>
      match toolKeywords kvs with
      | .error e => .error e
      | .ok toolKw =>
        .ok (if (expBindings kvs highlights toolKw).isEmpty then none
             else some (.obj (expBindings kvs highlights toolKw)))
  | _ => .ok none

/-- The entry loop of `_convert_experience`. -/
def expList : List JValue → Except PyErr (List JValue)
  | [] => .ok []
  | e :: rest =>
    match expEntry e with
    | .error er => .error er
    | .ok o =>
      match expList rest with
      | .error er => .error er
      | .ok others =>
        .ok (match o with
          | some j => j :: others
          | none => others)

/-- `_convert_experience`. -/
def convert_experience (v : JValue) : Except PyErr (List JValue) :=
  match pyIterOrEmpty v with
  | .error e => .error e
  | .ok entries => expList entries

/-- One entry of `_convert_projects` (binding order: name, highlights,
startDate, endDate, keywords). -/
def projBindings (kvs : List (String × JValue))
    (highlights toolKw : List String) : List (String × JValue) :=
  let name := strField kvs "name"
  let dates := strField kvs "dates"
  let dr := parse_date_range (.str dates)
  (if name = "" then [] else [("name", JValue.str name)])
  ++ (if highlights.isEmpty then []
      else [("highlights", JValue.arr (highlights.map JValue.str))])
  ++ (if dr.1 = "" then [] else [("startDate", JValue.str dr.1)])
  ++ (if dr.2 = "" then [] else [("endDate", JValue.str dr.2)])
  ++ (if toolKw.isEmpty then []
      else [("keywords", JValue.arr (toolKw.map JValue.str))])

def projEntry : JValue → Except PyErr (Option JValue)
  | .obj kvs =>
    match bulletTexts kvs with
    | .error e => .error e
    | .ok highlights =>
      match toolKeywords kvs with
      | .error e => .error e
      | .ok toolKw =>
        .ok (if (projBindings kvs highlights toolKw).isEmpty then none
             else some (.obj (projBindings kvs highlights toolKw)))
  | _ => .ok none

/-- The entry loop of `_convert_projects`. -/
def projList : List JValue → Except PyErr (List JValue)
  | [] => .ok []
  | e :: rest =>
    match projEntry e with
    | .error er => .error er
    | .ok o =>
      match projList rest with
      | .error er => .error er
      | .ok others =>
        .ok (match o with
          | some j => j :: others
          | none => others)

/-- `_convert_projects`. -/
def convert_projects (v : JValue) : Except PyErr (List JValue) :=
  match pyIterOrEmpty v with
  | .error e => .error e
  | .ok entries => projList entries

/-- The loop body of `_convert_skills` over the dict's items. -/
def skillsLoop : List (String × JValue) → List JValue
  | [] => []
  | (key, value) :: rest =>
    match value with
    | .null => skillsLoop rest
    | _ =>
      let keywords := match value with
        | .arr xs => (xs.map (fun t => pyStrip (pyStr t))).filter (fun s => s != "")
        | w => ((sSplitChar ',' (pyStr w)).map pyStrip).filter (fun s => s != "")
      if keywords.isEmpty then skillsLoop rest
      else
        JValue.obj
          [("name", .str (pyTitle (String.mk (key.data.map (fun c => if c == '_' then ' ' else c))))),
           ("level", .str ""),
           ("keywords", .arr (keywords.map JValue.str))]
        :: skillsLoop rest

/-- `_convert_skills`: non-dict input gives `[]`. -/
def convert_skills : JValue → List JValue
  | .obj kvs => skillsLoop (dictItems kvs)
  | _ => []

/-! ## The public API -/

/-- The fixed `$schema` URI of the output document. -/
def schemaURI : String :=
  "https://raw.githubusercontent.com/jsonresume/resume-schema/v1.0.0/schema.json"

/-- `to_json_resume` on the value produced by `json.loads`: a non-dict
top-level value raises `AttributeError` at `data.get`; otherwise the five
sections are converted (in source order education, experience, projects for
the fallible ones) and composed into the fixed six-key output document. -/
def to_json_resume (v : JValue) : Except PyErr JValue :=
  match v with
  | .obj data =>
    let basicsOut := convert_basics (orDefault (getOrNull data "basics") (.obj []))
    match convert_education (orDefault (getOrNull data "education") (.arr [])) with
    | .error e => .error e
    | .ok eduOut =>
      match convert_experience (orDefault (getOrNull data "experience") (.arr [])) with
      | .error e => .error e
      | .ok workOut =>
        match convert_projects (orDefault (getOrNull data "projects") (.arr [])) with
        | .error e => .error e
        | .ok projOut =>
          let skillsOut := convert_skills (orDefault (getOrNull data "skills") (.obj []))
          .ok (.obj
            [("$schema", .str schemaURI),
             ("basics", .obj basicsOut),
             ("work", .arr workOut),
             ("education", .arr eduOut),
             ("skills", .arr skillsOut),
             ("projects", .arr projOut)])
  | _ => .error .attributeError

/-! ## Specification-side definitions

These definitions transcribe the *claims'* wording (rather than the source
code) and are compared with the embedded code in the refinement theorems
below.
-/

/-- Claim C9's wording: split on commas, trim segments, drop empty
segments; zero segments (or non-string input) gives `("", "")`, one
segment gives `(segment, "")`, two or more give the first as city and the
second as region with later segments discarded. -/
def LocationSplitterSpec : JValue → String × String
  | .str s =>
    match ((sSplitChar ',' s).map pyStrip).filter (fun t => t != "") with
    | [] => ("", "")
    | [c] => (c, "")
    | c :: r :: _ => (c, r)
  | _ => ("", "")

/-- Claim C7's wording for the network: case-insensitive substring
classification, LinkedIn before GitHub, anything else the generic
`"Profile"`. -/
def specNetwork (url : String) : String :=
  if hasSub (pyLower url) "linkedin.com" then "LinkedIn"
  else if hasSub (pyLower url) "github.com" then "GitHub"
  else "Profile"

/-- Claim C7's wording for the username: the last non-empty `/`-separated
segment after stripping everything up to and including `"://"`, or the
empty string if no segment survives. -/
def specUsername (url : String) : String :=
  match ((sSplitChar '/' (afterScheme url)).filter (fun s => s != "")).getLast? with
  | some s => s
  | none => ""

/-- Claim C8's wording for one category value: a sequence has each element
stringified and trimmed with empties dropped; a (non-absent) scalar is
stringified and split on commas with segments trimmed and empties
dropped. -/
def skillKeywordsSpec : JValue → List String
  | .arr xs => (xs.map (fun t => pyStrip (pyStr t))).filter (fun s => s != "")
  | w => ((sSplitChar ',' (pyStr w)).map pyStrip).filter (fun s => s != "")

/-- Claim C8's wording for one item: a category with an absent (`null`)
value or an empty keyword list is omitted entirely; the display name
replaces underscores with spaces and title-cases each word; `level` is
always the empty string. -/
def specSkillItem (kv : String × JValue) : Option JValue :=
  match kv.2 with
  | .null => none
  | v =>
    let kws := skillKeywordsSpec v
    if kws.isEmpty then none
    else some (.obj
      [("name", .str (pyTitle (String.mk (kv.1.data.map (fun c => if c == '_' then ' ' else c))))),
       ("level", .str ""),
       ("keywords", .arr (kws.map JValue.str))])

/-- Claim C8's wording: process keys in source order, converting each item
independently. -/
def SkillsCategorizerSpec (items : List (String × JValue)) : List JValue :=
  items.filterMap specSkillItem

/-- The earliest match of the (case-insensitive) ` in ` separator in a
character list: `some (pre, rest)` when the separator occurs, where `pre`
is the text before it and `rest` the text after it. -/
def findInSep : List Char → Option (List Char × List Char)
  | [] => none
  | c :: cs =>
    match matchInAt (c :: cs) with
    | some rest => some ([], rest)
    | none =>
      match findInSep cs with
      | some (pre, rest) => some (c :: pre, rest)
      | none => none

/-- The amended claim C5: the degree title splits case-insensitively on the
word ` in ` surrounded by whitespace; `studyType` is the text before the
first occurrence, and `area` is the text after the first occurrence up to
(but not including) the *next* occurrence - not the entire remainder; with
no occurrence the whole string becomes `studyType`; empty or non-string
input yields both empty. -/
def DegreeTitleSplitterAmended : JValue → String × String
  | .str t0 =>
    let t := pyStrip t0
    if t = "" then ("", "")
    else
      match findInSep t.data with
      | none => (t, "")
      | some (pre, rest) =>
        let area := match findInSep rest with
          | none => String.mk rest
          | some (pre2, _) => String.mk pre2
        (pyStrip (String.mk pre), pyStrip area)
  | _ => ("", "")

/-! ## Well-formedness predicates for the output document (claim C6) -/

/-- The value is a non-empty string. -/
def neStr : JValue → Bool
  | .str s => s != ""
  | _ => false

/-- A profile object as emitted: network and url non-empty, username any
string. -/
def profileWF : JValue → Bool
  | .obj [("network", .str n), ("username", .str _), ("url", .str u)] =>
    n != "" && u != ""
  | _ => false

/-- A binding of the output `basics` other than `name`: non-empty string
fields, a location object with non-empty city (region may be empty), or a
non-empty list of profiles. -/
def basicsFieldWF : String × JValue → Bool
  | ("email", v) => neStr v
  | ("phone", v) => neStr v
  | ("url", v) => neStr v
  | ("location", .obj [("city", .str c), ("region", .str _)]) => c != ""
  | ("profiles", .arr ps) => !ps.isEmpty && ps.all profileWF
  | _ => false

/-- The output `basics` dict: `name` first (always present, possibly
empty), every other binding a well-formed optional field. -/
def basicsWF : List (String × JValue) → Bool
  | ("name", .str _) :: rest => rest.all basicsFieldWF
  | _ => false

/-- A binding of an output education entry. -/
def eduFieldWF : String × JValue → Bool
  | ("institution", v) => neStr v
  | ("area", v) => neStr v
  | ("studyType", v) => neStr v
  | ("startDate", v) => neStr v
  | ("endDate", v) => neStr v
  | ("location", v) => neStr v
  | _ => false

/-- An output education entry: a non-empty dict of well-formed bindings. -/
def eduWF : JValue → Bool
  | .obj bs => !bs.isEmpty && bs.all eduFieldWF
  | _ => false

/-- A binding of an output work entry. -/
def workFieldWF : String × JValue → Bool
  | ("name", v) => neStr v
  | ("position", v) => neStr v
  | ("location", v) => neStr v
  | ("startDate", v) => neStr v
  | ("endDate", v) => neStr v
  | ("highlights", .arr xs) => !xs.isEmpty && xs.all neStr
  | ("keywords", .arr xs) => !xs.isEmpty && xs.all neStr
  | _ => false

/-- An output work entry. -/
def workWF : JValue → Bool
  | .obj bs => !bs.isEmpty && bs.all workFieldWF
  | _ => false

/-- A binding of an output project entry. -/
def projFieldWF : String × JValue → Bool
  | ("name", v) => neStr v
  | ("startDate", v) => neStr v
  | ("endDate", v) => neStr v
  | ("highlights", .arr xs) => !xs.isEmpty && xs.all neStr
  | ("keywords", .arr xs) => !xs.isEmpty && xs.all neStr
  | _ => false

/-- An output project entry. -/
def projWF : JValue → Bool
  | .obj bs => !bs.isEmpty && bs.all projFieldWF
  | _ => false

/-- An output skills entry: exactly name / level / keywords, `level` always
the empty string, keywords a non-empty list of non-empty strings (the name
may be empty when the category key was the empty string). -/
def skillWF : JValue → Bool
  | .obj [("name", .str _), ("level", .str lv), ("keywords", .arr ks)] =>
    (lv == "") && !ks.isEmpty && ks.all neStr
  | _ => false

/-- The amended claim C6 invariant on an output document: exactly the six
top-level keys, the four section arrays, and every present field non-empty
except `basics.name`, `basics.location.region`, a profile `username`, a
skill `level` (always empty), and a skill `name` coming from an empty
category key. -/
def resumeWF : JValue → Bool
  | .obj [("$schema", .str u), ("basics", .obj b), ("work", .arr w),
          ("education", .arr e), ("skills", .arr sk), ("projects", .arr pr)] =>
    (u == schemaURI) && basicsWF b && w.all workWF && e.all eduWF
      && sk.all skillWF && pr.all projWF
  | _ => false

/-- The *literal* claim C6 on a profile: every present field non-empty,
username included. -/
def profileWFStrict : JValue → Bool
  | .obj [("network", .str n), ("username", .str un), ("url", .str u)] =>
    n != "" && un != "" && u != ""
  | _ => false

/-- The literal claim C6 on a `basics` binding other than `name`: the
region of the location object must also be non-empty. -/
def basicsFieldWFStrict : String × JValue → Bool
  | ("email", v) => neStr v
  | ("phone", v) => neStr v
  | ("url", v) => neStr v
  | ("location", .obj [("city", .str c), ("region", .str r)]) =>
    c != "" && r != ""
  | ("profiles", .arr ps) => !ps.isEmpty && ps.all profileWFStrict
  | _ => false

def basicsWFStrict : List (String × JValue) → Bool
  | ("name", .str _) :: rest => rest.all basicsFieldWFStrict
  | _ => false

/-- The literal claim C6 on a skills entry: `level` and `name` non-empty
like every other present field. -/
def skillWFStrict : JValue → Bool
  | .obj [("name", .str n), ("level", .str lv), ("keywords", .arr ks)] =>
    n != "" && lv != "" && !ks.isEmpty && ks.all neStr
  | _ => false

/-- The claim C6 as stated: every present field of the output non-empty,
with `basics.name` as the sole exception. -/
def resumeWFStrict : JValue → Bool
  | .obj [("$schema", .str u), ("basics", .obj b), ("work", .arr w),
          ("education", .arr e), ("skills", .arr sk), ("projects", .arr pr)] =>
    (u == schemaURI) && basicsWFStrict b && w.all workWF && e.all eduWF
      && sk.all skillWFStrict && pr.all projWF
  | _ => false

/-! ## Checkers for claim C4 (which inputs make the conversion raise) -/

/-- The conversion result is a success. -/
def exceptOk : Except PyErr JValue → Bool
  | .ok _ => true
  | .error _ => false

/-- A value that `for x in v or []` accepts: falsy, or iterable (list,
string, dict). -/
def iterOkB (v : JValue) : Bool :=
  !pyTruthy v ||
  (match v with
   | .arr _ => true
   | .str _ => true
   | .obj _ => true
   | _ => false)

/-- An experience/project entry whose `bullets` and `tools` values can be
iterated. -/
def entryOkB : JValue → Bool
  | .obj kvs => iterOkB (getOrNull kvs "bullets") && iterOkB (getOrNull kvs "tools")
  | _ => true

/-- A section value for experience/projects that never raises: iterable (or
falsy), and each dict element has iterable `bullets` and `tools`. -/
def secOkB (v : JValue) : Bool :=
  iterOkB v &&
  (match v with
   | .arr xs => xs.all entryOkB
   | _ => true)

/-! ## Location-usage observations (claim C10) -/

/-- The `"location"` bindings of an output dict. -/
def locBindings (bs : List (String × JValue)) : List (String × JValue) :=
  bs.filter (fun kv => kv.1 == "location")

/-- In a converted education entry, the only `"location"` binding is the
coerced raw location string, present exactly when it is non-empty. -/
def eduLocOk (kvs : List (String × JValue)) : Prop :=
  match eduEntry (.obj kvs) with
  | none => True
  | some (.obj bs) =>
    locBindings bs =
      (if strField kvs "location" = "" then []
       else [("location", JValue.str (strField kvs "location"))])
  | some _ => False

/-- In a converted experience entry, the only `"location"` binding is the
coerced raw location string, present exactly when it is non-empty. -/
def expLocOk (kvs : List (String × JValue)) : Prop :=
  match expEntry (.obj kvs) with
  | .ok (some (.obj bs)) =>
    locBindings bs =
      (if strField kvs "location" = "" then []
       else [("location", JValue.str (strField kvs "location"))])
  | .ok (some _) => False
  | _ => True

/-- A converted project entry never has a `"location"` binding. -/
def projLocOk (kvs : List (String × JValue)) : Prop :=
  match projEntry (.obj kvs) with
  | .ok (some (.obj bs)) => locBindings bs = []
  | .ok (some _) => False
  | _ => True

/-- In the output `basics`, the `"location"` binding is the city/region
object produced by the splitter, present exactly when a part is
non-empty. -/
def basicsLocOk (v : JValue) : Prop :=
  let kvs := match v with
    | .obj l => l
    | _ => []
  let cr := parse_city_region (.str (strField kvs "location"))
  locBindings (convert_basics v) =
    (if cr.1 ≠ "" ∨ cr.2 ≠ "" then
      [("location", JValue.obj [("city", JValue.str cr.1), ("region", JValue.str cr.2)])]
     else [])

/-! ## Theorems for the claims -/

/-- Claim C1 (code bug evaluation): on the well-formed range
`"Mar 2021 - May 2022"` the date-range parser returns both fields absent -
the separator class of `_DATE_SPLIT_RE` is the codepoint range
U+002D..U+2014, so every letter and digit acts as a separator and every
segment is empty - instead of the two valid `YYYY-MM` strings the claim
requires. -/
theorem c1_code_eval :
    parse_date_range (.str "Mar 2021 - May 2022") = ("", "") := by
  rfl

/-- Claim C2 (code bug evaluation): the two example inputs of the claim
(and of the source's own docstring) both come back with every field
absent, instead of `("2023-06", "2023-08")` and `("2024-01", "")`. -/
theorem c2_code_eval :
    parse_date_range (.str "Jun 2023 - Aug 2023") = ("", "") ∧
    parse_date_range (.str "Jan 2024 - Present") = ("", "") := by
  exact ⟨rfl, rfl⟩

/-- Claim C3 (code bug evaluation): `"May 2020"` contains no dash-family
character, so by the claim only `startDate` should be attempted (giving
`"2020-05"`), yet the parser returns both fields absent; the split turns
`"xy"` into three segments (both letters act as separators, characters far
outside the dash family), while a comma - below U+002D - does not
separate. -/
theorem c3_code_eval :
    parse_date_range (.str "May 2020") = ("", "") ∧
    reSplitDash "xy" = ["", "", ""] ∧
    reSplitDash "a,b" = ["", ",", ""] := by
  exact ⟨rfl, rfl, rfl⟩

/-- Claim C4 (counterexample): the input object `{"education": 5}` parses
as a structured record, yet the conversion raises `TypeError` (iterating
the truthy non-iterable section value), contradicting "no wrongly-typed
section value ever causes the conversion to raise". -/
theorem c4_counterexample :
    to_json_resume (.obj [("education", .num 5)]) = .error .typeError := by
  rfl

/-- Claim C5 (counterexample): on `"BS in Arts in Science"` the splitter
returns area `"Arts"` - the text up to the *second* ` in ` - not the
entire remainder `"Arts in Science"` required by the claim. -/
theorem c5_counterexample :
    split_degree_title (.str "BS in Arts in Science") = ("BS", "Arts") ∧
    ("BS", "Arts") ≠ (("BS" : String), ("Arts in Science" : String)) := by
  exact ⟨rfl, by decide⟩

/-- Claim C6 (counterexample): converting `{"skills": {"langs":
"Python"}}` produces a skills entry whose `level` field is present as the
empty string (and so does any skills input), refuting "absent or empty
optional fields are omitted entirely ... with the sole exception of
basics.name". -/
theorem c6_counterexample :
    (match to_json_resume (.obj [("skills", .obj [("langs", .str "Python")])]) with
     | .ok out => resumeWFStrict out
     | .error _ => true) = false := by
  rfl

/-- Claim C9: for every input, the location splitter agrees with the
claim's algorithm (split on commas, trim, drop empties; zero segments or
non-string input give `("", "")`, one segment `(segment, "")`, two or more
the first two with the rest discarded), and maps the claim's examples as
stated. -/
theorem c9_location_splitter :
    (∀ v : JValue, parse_city_region v = LocationSplitterSpec v) ∧
    parse_city_region (.str "North Brunswick, NJ") = ("North Brunswick", "NJ") ∧
    parse_city_region (.str "Remote") = ("Remote", "") ∧
    parse_city_region .null = ("", "") := by
  refine ⟨fun v => ?_, rfl, rfl, rfl⟩
  cases v <;> rfl

/-- Claim C7: for every input, the profile-link parser yields no profile on
blank or non-string input and otherwise emits the claim's classification
(LinkedIn before GitHub by case-insensitive substring, the generic
`"Profile"` otherwise) together with the claim's username extraction and
the stripped URL; the claim's GitHub example evaluates as stated. -/
theorem c7_profile_link :
    (∀ v : JValue, parse_link_profile v =
      match v with
      | .str url =>
        if pyStrip url = "" then none
        else some ⟨specNetwork (pyStrip url), specUsername (pyStrip url), pyStrip url⟩
      | _ => none) ∧
    parse_link_profile (.str "https://github.com/PCosby/") =
      some ⟨"GitHub", "PCosby", "https://github.com/PCosby/"⟩ := by
  refine ⟨fun v => ?_, rfl⟩
  cases v <;> rfl

/-- The skills loop implements claim C8's per-item algorithm. -/
theorem skillsLoop_eq_spec (l : List (String × JValue)) :
    skillsLoop l = SkillsCategorizerSpec l := by
  induction l with
  | nil => rfl
  | cons kv rest ih =>
    obtain ⟨k, v⟩ := kv
    cases v <;>
      simp only [skillsLoop, SkillsCategorizerSpec, List.filterMap_cons,
        specSkillItem, skillKeywordsSpec] <;>
      try exact ih
    all_goals
      rw [show SkillsCategorizerSpec rest = List.filterMap specSkillItem rest from rfl] at ih
      split <;> simp [ih]

/-- Claim C8: the skills categorizer processes the dict's items in source
order exactly as the claim describes (sequence values stringified, trimmed,
empties dropped; scalar values stringified and split on commas; categories
with no surviving keyword, or an absent value, omitted; underscores→spaces
title-cased names; `level` always empty), and the claim's example
evaluates as stated. -/
theorem c8_skills_categorizer :
    (∀ kvs : List (String × JValue),
      convert_skills (.obj kvs) = SkillsCategorizerSpec (dictItems kvs)) ∧
    convert_skills (.obj [("programming_languages", .arr [.str "Python", .str " "])]) =
      [.obj [("name", .str "Programming Languages"), ("level", .str ""),
             ("keywords", .arr [.str "Python"])]] := by
  exact ⟨fun kvs => skillsLoop_eq_spec (dictItems kvs), rfl⟩

/-- Dropping a prefix cannot lengthen a list. -/
theorem dropWhileLenLe {α : Type} (p : α → Bool) :
    ∀ l : List α, (l.dropWhile p).length ≤ l.length := by
  intro l
  induction l with
  | nil => simp
  | cons c cs ih =>
    by_cases h : p c
    · rw [List.dropWhile_cons, if_pos h]
      exact Nat.le_succ_of_le ih
    · rw [List.dropWhile_cons, if_neg h]

/-- A successful ` in `-separator match consumes at least one character. -/
theorem matchInAt_length : ∀ {l r : List Char}, matchInAt l = some r → r.length < l.length := by
  intro l r h
  cases l with
  | nil => simp [matchInAt] at h
  | cons c cs =>
    by_cases hsp : pyIsSpace c = true
    · cases hdw : cs.dropWhile pyIsSpace with
      | nil => simp [matchInAt, hsp, hdw] at h
      | cons i tl =>
        cases tl with
        | nil => simp [matchInAt, hsp, hdw] at h
        | cons n tl2 =>
          cases tl2 with
          | nil => simp [matchInAt, hsp, hdw] at h
          | cons d rest =>
            by_cases hc : ((i.toLower == 'i') && (n.toLower == 'n') && pyIsSpace d) = true
            · simp only [matchInAt, hsp, hdw, hc, if_true, Option.some.injEq] at h
              subst h
              have h1 : (i :: n :: d :: rest).length ≤ cs.length := by
                rw [← hdw]; exact dropWhileLenLe _ _
              have h2 : (rest.dropWhile pyIsSpace).length ≤ rest.length :=
                dropWhileLenLe _ _
              simp only [List.length_cons] at h1 ⊢
              omega
            · simp [matchInAt, hsp, hdw, hc] at h
    · simp [matchInAt, hsp] at h

/-- Any fuel above the list length computes the same split. -/
theorem splitInGo_fuel : ∀ (f1 f2 : Nat) (l acc : List Char),
    l.length < f1 → l.length < f2 → splitInGo f1 l acc = splitInGo f2 l acc := by
  intro f1
  induction f1 with
  | zero => intro f2 l acc h1 _; exact absurd h1 (by omega)
  | succ f ih =>
    intro f2 l acc h1 h2
    cases f2 with
    | zero => exact absurd h2 (by omega)
    | succ g =>
      cases l with
      | nil => rfl
      | cons c cs =>
        simp only [splitInGo]
        cases hm : matchInAt (c :: cs) with
        | some rest =>
          have hr := matchInAt_length hm
          simp only [List.length_cons] at h1 h2 hr
          have := ih g rest [] (by omega) (by omega)
          simp [this]
        | none =>
          simp only [List.length_cons] at h1 h2
          exact ih g cs (c :: acc) (by omega) (by omega)

/-- The split agrees with the earliest-match view: the piece before the
first separator occurrence, then the split of what follows. -/
theorem splitInGo_spec : ∀ (f : Nat) (l acc : List Char), l.length < f →
    splitInGo f l acc =
      (match findInSep l with
       | none => [String.mk (acc.reverse ++ l)]
       | some (pre, rest) =>
         String.mk (acc.reverse ++ pre) :: splitInGo (rest.length + 1) rest []) := by
  intro f
  induction f with
  | zero => intro l acc h; exact absurd h (by omega)
  | succ f ih =>
    intro l acc h
    cases l with
    | nil => simp [splitInGo, findInSep]
    | cons c cs =>
      simp only [splitInGo, findInSep]
      cases hm : matchInAt (c :: cs) with
      | some rest =>
        have hr := matchInAt_length hm
        simp only [List.length_cons] at h hr
        have hfuel : splitInGo f rest [] = splitInGo (rest.length + 1) rest [] :=
          splitInGo_fuel f (rest.length + 1) rest [] (by omega) (by omega)
        simp [hfuel]
      | none =>
        simp only [List.length_cons] at h
        have hrec := ih cs (c :: acc) (by omega)
        rw [hrec]
        cases hf : findInSep cs with
        | none => simp
        | some pr =>
          obtain ⟨pre, rest⟩ := pr
          simp

/-- Claim C5 (amended): for every input the degree-title splitter agrees
with the amended algorithm - case-insensitive split on the word ` in `
surrounded by whitespace, `studyType` the text before the first
occurrence, `area` the text between the first and the *next* occurrence
(not the entire remainder), no occurrence putting the whole string in
`studyType`, empty or non-string input yielding both empty - and the
claim's two examples evaluate as stated. -/
theorem c5_amended :
    (∀ v : JValue, split_degree_title v = DegreeTitleSplitterAmended v) ∧
    split_degree_title (.str "Masters of Engineering in Computer Science") =
      ("Masters of Engineering", "Computer Science") ∧
    split_degree_title (.str "BS Computer Science") = ("BS Computer Science", "") := by
  refine ⟨fun v => ?_, rfl, rfl⟩
  cases v with
  | str t0 =>
    simp only [split_degree_title, DegreeTitleSplitterAmended]
    by_cases ht : pyStrip t0 = ""
    · simp [ht]
    · simp only [if_neg ht]
      have h1 := splitInGo_spec ((pyStrip t0).data.length + 1) (pyStrip t0).data [] (by omega)
      have hr : reSplitIn (pyStrip t0) = splitInGo ((pyStrip t0).data.length + 1) (pyStrip t0).data [] := rfl
      cases hf : findInSep (pyStrip t0).data with
      | none =>
        rw [hf] at h1
        simp only [List.reverse_nil, List.nil_append] at h1
        rw [hr, h1]
      | some pr =>
        obtain ⟨pre, rest⟩ := pr
        rw [hf] at h1
        simp only [List.reverse_nil, List.nil_append] at h1
        have h2 := splitInGo_spec (rest.length + 1) rest [] (by omega)
        cases hf2 : findInSep rest with
        | none =>
          rw [hf2] at h2
          simp only [List.reverse_nil, List.nil_append] at h2
          rw [hr, h1, h2]
          simp [hf2]
        | some pr2 =>
          obtain ⟨pre2, rest2⟩ := pr2
          rw [hf2] at h2
          simp only [List.reverse_nil, List.nil_append] at h2
          rw [hr, h1, h2]
          simp [hf2]
  | null => rfl
  | bool b => rfl
  | num n => rfl
  | arr xs => rfl
  | obj kvs => rfl

/-- A value accepted by `iterOkB` can be iterated (or defaults to empty). -/
theorem pyIterOrEmpty_ok : ∀ {v : JValue}, iterOkB v = true →
    ∃ xs, pyIterOrEmpty v = .ok xs := by
  intro v h
  cases v with
  | null => exact ⟨[], rfl⟩
  | bool b =>
    cases b with
    | false => exact ⟨[], rfl⟩
    | true => simp [iterOkB, pyTruthy] at h
  | num n =>
    rcases eq_or_ne n 0 with rfl | hn
    · exact ⟨[], rfl⟩
    · simp [iterOkB, pyTruthy, hn] at h
  | str s =>
    simp only [pyIterOrEmpty]
    split
    · exact ⟨_, rfl⟩
    · exact ⟨[], rfl⟩
  | arr xs =>
    simp only [pyIterOrEmpty]
    split
    · exact ⟨_, rfl⟩
    · exact ⟨[], rfl⟩
  | obj kvs =>
    simp only [pyIterOrEmpty]
    split
    · exact ⟨_, rfl⟩
    · exact ⟨[], rfl⟩

/-- An array value is always iterated to its own elements. -/
theorem pyIterOrEmpty_arr (xs : List JValue) :
    pyIterOrEmpty (.arr xs) = .ok xs := by
  cases xs <;> rfl

/-- A string value is always iterated to its one-character strings. -/
theorem pyIterOrEmpty_str (s : String) :
    pyIterOrEmpty (.str s) = .ok (s.data.map (fun c => JValue.str (String.mk [c]))) := by
  obtain ⟨l⟩ := s
  cases l <;> rfl

/-- A dict value is always iterated to its keys. -/
theorem pyIterOrEmpty_obj (kvs : List (String × JValue)) :
    pyIterOrEmpty (.obj kvs) = .ok ((dictItems kvs).map (fun kv => JValue.str kv.1)) := by
  cases kvs <;> rfl

/-- Bullets extraction succeeds when the `bullets` value is iterable or
falsy. -/
theorem bulletTexts_ok {kvs : List (String × JValue)}
    (h : iterOkB (getOrNull kvs "bullets") = true) :
    ∃ l, bulletTexts kvs = .ok l := by
  obtain ⟨xs, hx⟩ := pyIterOrEmpty_ok h
  cases hres : bulletTexts kvs with
  | ok l => exact ⟨l, rfl⟩
  | error er => simp [bulletTexts, hx] at hres

/-- Tool-keyword extraction succeeds when the `tools` value is iterable or
falsy. -/
theorem toolKeywords_ok {kvs : List (String × JValue)}
    (h : iterOkB (getOrNull kvs "tools") = true) :
    ∃ l, toolKeywords kvs = .ok l := by
  obtain ⟨xs, hx⟩ := pyIterOrEmpty_ok h
  cases hres : toolKeywords kvs with
  | ok l => exact ⟨l, rfl⟩
  | error er => simp [toolKeywords, hx] at hres

/-- An experience entry converts without raising when its `bullets` and
`tools` are iterable. -/
theorem expEntry_ok : ∀ {e : JValue}, entryOkB e = true → ∃ o, expEntry e = .ok o := by
  intro e h
  cases e with
  | obj kvs =>
    simp only [entryOkB, Bool.and_eq_true] at h
    obtain ⟨l1, hb⟩ := bulletTexts_ok h.1
    obtain ⟨l2, ht⟩ := toolKeywords_ok h.2
    cases hres : expEntry (.obj kvs) with
    | ok o => exact ⟨o, rfl⟩
    | error er => simp [expEntry, hb, ht] at hres
  | null => exact ⟨none, rfl⟩
  | bool b => exact ⟨none, rfl⟩
  | num n => exact ⟨none, rfl⟩
  | str s => exact ⟨none, rfl⟩
  | arr xs => exact ⟨none, rfl⟩

/-- A project entry converts without raising when its `bullets` and
`tools` are iterable. -/
theorem projEntry_ok : ∀ {e : JValue}, entryOkB e = true → ∃ o, projEntry e = .ok o := by
  intro e h
  cases e with
  | obj kvs =>
    simp only [entryOkB, Bool.and_eq_true] at h
    obtain ⟨l1, hb⟩ := bulletTexts_ok h.1
    obtain ⟨l2, ht⟩ := toolKeywords_ok h.2
    cases hres : projEntry (.obj kvs) with
    | ok o => exact ⟨o, rfl⟩
    | error er => simp [projEntry, hb, ht] at hres
  | null => exact ⟨none, rfl⟩
  | bool b => exact ⟨none, rfl⟩
  | num n => exact ⟨none, rfl⟩
  | str s => exact ⟨none, rfl⟩
  | arr xs => exact ⟨none, rfl⟩

/-- The experience loop succeeds on a list of acceptable entries. -/
theorem expList_ok : ∀ {xs : List JValue}, (∀ e ∈ xs, entryOkB e = true) →
    ∃ ys, expList xs = .ok ys := by
  intro xs h
  induction xs with
  | nil => exact ⟨[], rfl⟩
  | cons e rest ih =>
    obtain ⟨o, ho⟩ := expEntry_ok (h e (List.mem_cons_self e rest))
    obtain ⟨ys, hys⟩ := ih (fun x hx => h x (List.mem_cons_of_mem e hx))
    cases hres : expList (e :: rest) with
    | ok zs => exact ⟨zs, rfl⟩
    | error er => simp [expList, ho, hys] at hres

/-- The projects loop succeeds on a list of acceptable entries. -/
theorem projList_ok : ∀ {xs : List JValue}, (∀ e ∈ xs, entryOkB e = true) →
    ∃ ys, projList xs = .ok ys := by
  intro xs h
  induction xs with
  | nil => exact ⟨[], rfl⟩
  | cons e rest ih =>
    obtain ⟨o, ho⟩ := projEntry_ok (h e (List.mem_cons_self e rest))
    obtain ⟨ys, hys⟩ := ih (fun x hx => h x (List.mem_cons_of_mem e hx))
    cases hres : projList (e :: rest) with
    | ok zs => exact ⟨zs, rfl⟩
    | error er => simp [projList, ho, hys] at hres

/-- Education conversion succeeds when the section value is iterable or
falsy. -/
theorem convert_education_ok {v : JValue} (h : iterOkB v = true) :
    ∃ ys, convert_education v = .ok ys := by
  obtain ⟨xs, hx⟩ := pyIterOrEmpty_ok h
  cases hres : convert_education v with
  | ok l => exact ⟨l, rfl⟩
  | error er => simp [convert_education, hx] at hres

/-- Experience conversion succeeds when the section value satisfies
`secOkB`. -/
theorem convert_experience_ok : ∀ {v : JValue}, secOkB v = true →
    ∃ ys, convert_experience v = .ok ys := by
  intro v h
  simp only [secOkB, Bool.and_eq_true] at h
  cases v with
  | arr xs =>
    obtain ⟨ys, hys⟩ := expList_ok (by
      intro e he
      have := h.2
      simp only [List.all_eq_true] at this
      exact this e he)
    exact ⟨ys, by rw [convert_experience, pyIterOrEmpty_arr]; exact hys⟩
  | str s =>
    have hall : ∀ e ∈ s.data.map (fun c => JValue.str (String.mk [c])), entryOkB e = true := by
      intro e he
      obtain ⟨c, _, rfl⟩ := List.mem_map.mp he
      rfl
    obtain ⟨ys, hys⟩ := expList_ok hall
    exact ⟨ys, by rw [convert_experience, pyIterOrEmpty_str]; exact hys⟩
  | obj kvs =>
    have hall : ∀ e ∈ (dictItems kvs).map (fun kv => JValue.str kv.1), entryOkB e = true := by
      intro e he
      obtain ⟨kv, _, rfl⟩ := List.mem_map.mp he
      rfl
    obtain ⟨ys, hys⟩ := expList_ok hall
    exact ⟨ys, by rw [convert_experience, pyIterOrEmpty_obj]; exact hys⟩
  | null => exact ⟨[], rfl⟩
  | bool b =>
    cases b with
    | false => exact ⟨[], rfl⟩
    | true => simp [iterOkB, pyTruthy] at h
  | num n =>
    rcases eq_or_ne n 0 with rfl | hn
    · exact ⟨[], rfl⟩
    · simp [iterOkB, pyTruthy, hn] at h

/-- Projects conversion succeeds when the section value satisfies
`secOkB`. -/
theorem convert_projects_ok : ∀ {v : JValue}, secOkB v = true →
    ∃ ys, convert_projects v = .ok ys := by
  intro v h
  simp only [secOkB, Bool.and_eq_true] at h
  cases v with
  | arr xs =>
    obtain ⟨ys, hys⟩ := projList_ok (by
      intro e he
      have := h.2
      simp only [List.all_eq_true] at this
      exact this e he)
    exact ⟨ys, by rw [convert_projects, pyIterOrEmpty_arr]; exact hys⟩
  | str s =>
    have hall : ∀ e ∈ s.data.map (fun c => JValue.str (String.mk [c])), entryOkB e = true := by
      intro e he
      obtain ⟨c, _, rfl⟩ := List.mem_map.mp he
      rfl
    obtain ⟨ys, hys⟩ := projList_ok hall
    exact ⟨ys, by rw [convert_projects, pyIterOrEmpty_str]; exact hys⟩
  | obj kvs =>
    have hall : ∀ e ∈ (dictItems kvs).map (fun kv => JValue.str kv.1), entryOkB e = true := by
      intro e he
      obtain ⟨kv, _, rfl⟩ := List.mem_map.mp he
      rfl
    obtain ⟨ys, hys⟩ := projList_ok hall
    exact ⟨ys, by rw [convert_projects, pyIterOrEmpty_obj]; exact hys⟩
  | null => exact ⟨[], rfl⟩
  | bool b =>
    cases b with
    | false => exact ⟨[], rfl⟩
    | true => simp [iterOkB, pyTruthy] at h
  | num n =>
    rcases eq_or_ne n 0 with rfl | hn
    · exact ⟨[], rfl⟩
    · simp [iterOkB, pyTruthy, hn] at h

/-- Claim C4 (amended): for any parsed record whose `education` section is
iterable or falsy and whose `experience`/`projects` sections (after the
`or []` default) are iterable with iterable per-entry `bullets` and
`tools`, the conversion never raises; every other malformed field degrades
to omission.  (The unamended claim fails because a truthy non-iterable
section, `bullets` or `tools` value - a number or `true` - raises
`TypeError` even though the record itself parsed.) -/
theorem c4_amended (data : List (String × JValue))
    (h1 : iterOkB (orDefault (getOrNull data "education") (.arr [])) = true)
    (h2 : secOkB (orDefault (getOrNull data "experience") (.arr [])) = true)
    (h3 : secOkB (orDefault (getOrNull data "projects") (.arr [])) = true) :
    exceptOk (to_json_resume (.obj data)) = true := by
  obtain ⟨e1, he⟩ := convert_education_ok h1
  obtain ⟨w1, hw⟩ := convert_experience_ok h2
  obtain ⟨p1, hp⟩ := convert_projects_ok h3
  simp [to_json_resume, he, hw, hp, exceptOk]

/-- Witness for the amended claim C4 at a concrete record exercising all
three hypotheses. -/
theorem c4_amended_witness :
    iterOkB (orDefault (getOrNull
        [("basics", JValue.str "x"), ("education", JValue.num 0),
         ("experience", JValue.arr [JValue.obj
            [("name", JValue.str "A"),
             ("bullets", JValue.arr [JValue.obj [("text", JValue.str "did")]]),
             ("tools", JValue.str "Py")]]),
         ("projects", JValue.null)] "education") (.arr [])) = true ∧
    secOkB (orDefault (getOrNull
        [("basics", JValue.str "x"), ("education", JValue.num 0),
         ("experience", JValue.arr [JValue.obj
            [("name", JValue.str "A"),
             ("bullets", JValue.arr [JValue.obj [("text", JValue.str "did")]]),
             ("tools", JValue.str "Py")]]),
         ("projects", JValue.null)] "experience") (.arr [])) = true ∧
    secOkB (orDefault (getOrNull
        [("basics", JValue.str "x"), ("education", JValue.num 0),
         ("experience", JValue.arr [JValue.obj
            [("name", JValue.str "A"),
             ("bullets", JValue.arr [JValue.obj [("text", JValue.str "did")]]),
             ("tools", JValue.str "Py")]]),
         ("projects", JValue.null)] "projects") (.arr [])) = true ∧
    exceptOk (to_json_resume (.obj
        [("basics", JValue.str "x"), ("education", JValue.num 0),
         ("experience", JValue.arr [JValue.obj
            [("name", JValue.str "A"),
             ("bullets", JValue.arr [JValue.obj [("text", JValue.str "did")]]),
             ("tools", JValue.str "Py")]]),
         ("projects", JValue.null)])) = true := by
  exact ⟨rfl, rfl, rfl, c4_amended _ rfl rfl rfl⟩

/-- `all` over an omit-when-empty guard, guard first. -/
theorem all_ite {α : Type} {p : α → Bool} {c : Prop} [Decidable c] {x : α}
    (h : ¬c → p x = true) :
    (if c then ([] : List α) else [x]).all p = true := by
  by_cases hc : c
  · simp [hc]
  · simp [hc, h hc]

/-- `all` over an emit-when-present guard. -/
theorem all_ite2 {α : Type} {p : α → Bool} {c : Prop} [Decidable c] {x : α}
    (h : c → p x = true) :
    (if c then [x] else ([] : List α)).all p = true := by
  by_cases hc : c
  · simp [hc, h hc]
  · simp [hc]

/-- When the splitter finds a region, it also found a city. -/
theorem parse_city_region_city_ne : ∀ {v : JValue},
    (parse_city_region v).2 ≠ "" → (parse_city_region v).1 ≠ "" := by
  intro v h
  cases v with
  | str s =>
    cases hp : ((sSplitChar ',' s).map pyStrip).filter (fun p => p != "") with
    | nil => simp [parse_city_region, hp] at h
    | cons p0 tl =>
      cases tl with
      | nil => simp [parse_city_region, hp] at h
      | cons p1 tl2 =>
        have hmem : p0 ∈ ((sSplitChar ',' s).map pyStrip).filter (fun p => p != "") := by
          rw [hp]; exact List.mem_cons_self _ _
        have hne := (List.mem_filter.mp hmem).2
        simp only [bne_iff_ne, ne_eq] at hne
        simp [parse_city_region, hp, hne]
  | null => simp [parse_city_region] at h
  | bool b => simp [parse_city_region] at h
  | num n => simp [parse_city_region] at h
  | arr xs => simp [parse_city_region] at h
  | obj kvs => simp [parse_city_region] at h

/-- Every profile the link parser emits has a non-empty network and url. -/
theorem parse_link_profile_wf : ∀ {u : JValue} {p : Profile},
    parse_link_profile u = some p → profileWF (profileJ p) = true := by
  intro u p h
  cases u with
  | str url0 =>
    simp only [parse_link_profile] at h
    by_cases hs : pyStrip url0 = ""
    · simp [hs] at h
    · rw [if_neg hs] at h
      simp only [Option.some.injEq] at h
      subst h
      simp only [profileJ, profileWF, Bool.and_eq_true, bne_iff_ne, ne_eq]
      constructor
      · split
        · simp
        · split <;> simp
      · exact hs
  | null => simp [parse_link_profile] at h
  | bool b => simp [parse_link_profile] at h
  | num n => simp [parse_link_profile] at h
  | arr xs => simp [parse_link_profile] at h
  | obj kvs => simp [parse_link_profile] at h

/-- Membership in an omit-when-empty guarded singleton. -/
theorem mem_ite_nil {α : Type} {c : Prop} [Decidable c] {x y : α}
    (h : x ∈ (if c then ([] : List α) else [y])) : ¬c ∧ x = y := by
  by_cases hc : c
  · rw [if_pos hc] at h; cases h
  · rw [if_neg hc] at h; exact ⟨hc, List.mem_singleton.mp h⟩

/-- Membership in an emit-when-present guarded singleton. -/
theorem mem_ite_nil2 {α : Type} {c : Prop} [Decidable c] {x y : α}
    (h : x ∈ (if c then [y] else ([] : List α))) : c ∧ x = y := by
  by_cases hc : c
  · rw [if_pos hc] at h; exact ⟨hc, List.mem_singleton.mp h⟩
  · rw [if_neg hc] at h; cases h

/-- A non-empty profiles list is a well-formed basics binding. -/
theorem profiles_field_wf {ps : List Profile} (hn : ps ≠ [])
    (hall : ∀ p ∈ ps, profileWF (profileJ p) = true) :
    basicsFieldWF ("profiles", JValue.arr (ps.map profileJ)) = true := by
  simp only [basicsFieldWF, Bool.and_eq_true]
  refine ⟨?_, ?_⟩
  · cases ps with
    | nil => exact absurd rfl hn
    | cons a as => rfl
  · rw [List.all_eq_true]
    intro x hx
    obtain ⟨q, hq, rfl⟩ := List.mem_map.mp hx
    exact hall q hq

/-- The converted basics block always satisfies the (amended) basics
invariant. -/
theorem convert_basics_wf (v : JValue) : basicsWF (convert_basics v) = true := by
  simp only [convert_basics, List.singleton_append, List.cons_append, List.nil_append]
  simp only [basicsWF]
  rw [List.all_eq_true]
  intro x hx
  simp only [List.mem_append] at hx
  rcases hx with ((((hx | hx) | hx) | hx) | hx)
  · obtain ⟨hn, rfl⟩ := mem_ite_nil hx
    simp only [basicsFieldWF, neStr, bne_iff_ne, ne_eq]
    exact hn
  · obtain ⟨hn, rfl⟩ := mem_ite_nil hx
    simp only [basicsFieldWF, neStr, bne_iff_ne, ne_eq]
    exact hn
  · obtain ⟨hn, rfl⟩ := mem_ite_nil hx
    simp only [basicsFieldWF, neStr, bne_iff_ne, ne_eq]
    exact hn
  · obtain ⟨hc, rfl⟩ := mem_ite_nil2 hx
    simp only [basicsFieldWF, bne_iff_ne, ne_eq]
    rcases hc with hc | hr
    · exact hc
    · exact parse_city_region_city_ne hr
  · obtain ⟨hn, rfl⟩ := mem_ite_nil hx
    refine profiles_field_wf ?_ ?_
    · intro hnil
      exact hn (by simp [hnil])
    · intro p hp
      obtain ⟨u, _, hu⟩ := List.mem_filterMap.mp hp
      exact parse_link_profile_wf hu

/-- Elements surviving the non-empty filter are non-empty. -/
theorem mem_filter_ne {ys : List String} {s : String}
    (h : s ∈ ys.filter (fun t => t != "")) : s ≠ "" := by
  have := (List.mem_filter.mp h).2
  simpa [bne_iff_ne] using this

/-- A non-empty list of non-empty strings makes a well-formed
highlights/keywords value. -/
theorem strListField_wf {xs : List String} (hne : ¬xs.isEmpty = true)
    (hall : ∀ s ∈ xs, s ≠ "") :
    (!(xs.map JValue.str).isEmpty && (xs.map JValue.str).all neStr) = true := by
  rw [Bool.and_eq_true]
  refine ⟨?_, ?_⟩
  · cases xs with
    | nil => exact absurd rfl hne
    | cons a as => rfl
  · rw [List.all_eq_true]
    intro x hx
    obtain ⟨s, hs, rfl⟩ := List.mem_map.mp hx
    simp only [neStr, bne_iff_ne, ne_eq]
    exact hall s hs

/-- Every converted education entry is well-formed. -/
theorem eduEntry_wf : ∀ {e j : JValue}, eduEntry e = some j → eduWF j = true := by
  intro e j h
  cases e with
  | obj kvs =>
    simp only [eduEntry] at h
    split at h
    · exact absurd h (by simp)
    · rename_i hne
      simp only [Option.some.injEq] at h
      subst h
      simp only [eduWF, Bool.and_eq_true]
      refine ⟨?_, ?_⟩
      · simp only [Bool.not_eq_true']
        simpa using hne
      · rw [List.all_eq_true]
        intro x hx
        simp only [eduBindings, List.mem_append] at hx
        rcases hx with (((((hx | hx) | hx) | hx) | hx) | hx) <;>
          · obtain ⟨hn, rfl⟩ := mem_ite_nil hx
            simp only [eduFieldWF, neStr, bne_iff_ne, ne_eq]
            exact hn
  | null => simp [eduEntry] at h
  | bool b => simp [eduEntry] at h
  | num n => simp [eduEntry] at h
  | str s => simp [eduEntry] at h
  | arr xs => simp [eduEntry] at h

/-- The strings `_bullet_texts` returns are non-empty. -/
theorem bulletText_some_ne : ∀ {b : JValue} {s : String}, bulletText b = some s → s ≠ "" := by
  intro b s h
  cases b with
  | obj bkv =>
    cases hg : pyGet bkv "text" with
    | none => simp [bulletText, hg] at h
    | some v =>
      cases v with
      | str t =>
        simp only [bulletText, hg] at h
        by_cases ht : pyStrip t = ""
        · simp [ht] at h
        · rw [if_neg ht] at h
          simp only [Option.some.injEq] at h
          subst h
          exact ht
      | null => simp [bulletText, hg] at h
      | bool b2 => simp [bulletText, hg] at h
      | num n => simp [bulletText, hg] at h
      | arr xs => simp [bulletText, hg] at h
      | obj kvs2 => simp [bulletText, hg] at h
  | null => simp [bulletText] at h
  | bool b2 => simp [bulletText] at h
  | num n => simp [bulletText] at h
  | str s2 => simp [bulletText] at h
  | arr xs => simp [bulletText] at h

/-- All highlights are non-empty strings. -/
theorem bulletTexts_ne {kvs : List (String × JValue)} {l : List String}
    (h : bulletTexts kvs = .ok l) : ∀ s ∈ l, s ≠ "" := by
  simp only [bulletTexts] at h
  cases hx : pyIterOrEmpty (getOrNull kvs "bullets") with
  | error e => simp [hx] at h
  | ok bs =>
    simp only [hx, Except.ok.injEq] at h
    subst h
    intro s hs
    obtain ⟨b, _, hb⟩ := List.mem_filterMap.mp hs
    exact bulletText_some_ne hb

/-- All tool keywords are non-empty strings. -/
theorem toolKeywords_ne {kvs : List (String × JValue)} {l : List String}
    (h : toolKeywords kvs = .ok l) : ∀ s ∈ l, s ≠ "" := by
  simp only [toolKeywords] at h
  cases hx : pyIterOrEmpty (getOrNull kvs "tools") with
  | error e => simp [hx] at h
  | ok ts =>
    simp only [hx, Except.ok.injEq] at h
    subst h
    intro s hs
    exact mem_filter_ne hs

/-- Every converted experience entry is well-formed. -/
theorem expEntry_wf : ∀ {e j : JValue}, expEntry e = .ok (some j) → workWF j = true := by
  intro e j h
  cases e with
  | obj kvs =>
    simp only [expEntry] at h
    cases hb : bulletTexts kvs with
    | error er => simp [hb] at h
    | ok highlights =>
      simp only [hb] at h
      cases ht : toolKeywords kvs with
      | error er => simp [ht] at h
      | ok toolKw =>
        simp only [ht, Except.ok.injEq] at h
        split at h
        · exact absurd h (by simp)
        · rename_i hne
          simp only [Option.some.injEq] at h
          subst h
          simp only [workWF, Bool.and_eq_true]
          refine ⟨?_, ?_⟩
          · simp only [Bool.not_eq_true']
            simpa using hne
          · rw [List.all_eq_true]
            intro x hx
            simp only [expBindings, List.mem_append] at hx
            rcases hx with ((((((hx | hx) | hx) | hx) | hx) | hx) | hx)
            · obtain ⟨hn, rfl⟩ := mem_ite_nil hx
              simp only [workFieldWF, neStr, bne_iff_ne, ne_eq]
              exact hn
            · obtain ⟨hn, rfl⟩ := mem_ite_nil hx
              simp only [workFieldWF, neStr, bne_iff_ne, ne_eq]
              exact hn
            · obtain ⟨hn, rfl⟩ := mem_ite_nil hx
              simp only [workFieldWF, neStr, bne_iff_ne, ne_eq]
              exact hn
            · obtain ⟨hn, rfl⟩ := mem_ite_nil hx
              simp only [workFieldWF, neStr, bne_iff_ne, ne_eq]
              exact hn
            · obtain ⟨hn, rfl⟩ := mem_ite_nil hx
              simp only [workFieldWF, neStr, bne_iff_ne, ne_eq]
              exact hn
            · obtain ⟨hn, rfl⟩ := mem_ite_nil hx
              simp only [workFieldWF]
              exact strListField_wf hn (bulletTexts_ne hb)
            · obtain ⟨hn, rfl⟩ := mem_ite_nil hx
              simp only [workFieldWF]
              exact strListField_wf hn (toolKeywords_ne ht)
  | null => simp [expEntry] at h
  | bool b => simp [expEntry] at h
  | num n => simp [expEntry] at h
  | str s => simp [expEntry] at h
  | arr xs => simp [expEntry] at h

/-- Every converted project entry is well-formed. -/
theorem projEntry_wf : ∀ {e j : JValue}, projEntry e = .ok (some j) → projWF j = true := by
  intro e j h
  cases e with
  | obj kvs =>
    simp only [projEntry] at h
    cases hb : bulletTexts kvs with
    | error er => simp [hb] at h
    | ok highlights =>
      simp only [hb] at h
      cases ht : toolKeywords kvs with
      | error er => simp [ht] at h
      | ok toolKw =>
        simp only [ht, Except.ok.injEq] at h
        split at h
        · exact absurd h (by simp)
        · rename_i hne
          simp only [Option.some.injEq] at h
          subst h
          simp only [projWF, Bool.and_eq_true]
          refine ⟨?_, ?_⟩
          · simp only [Bool.not_eq_true']
            simpa using hne
          · rw [List.all_eq_true]
            intro x hx
            simp only [projBindings, List.mem_append] at hx
            rcases hx with ((((hx | hx) | hx) | hx) | hx)
            · obtain ⟨hn, rfl⟩ := mem_ite_nil hx
              simp only [projFieldWF, neStr, bne_iff_ne, ne_eq]
              exact hn
            · obtain ⟨hn, rfl⟩ := mem_ite_nil hx
              simp only [projFieldWF]
              exact strListField_wf hn (bulletTexts_ne hb)
            · obtain ⟨hn, rfl⟩ := mem_ite_nil hx
              simp only [projFieldWF, neStr, bne_iff_ne, ne_eq]
              exact hn
            · obtain ⟨hn, rfl⟩ := mem_ite_nil hx
              simp only [projFieldWF, neStr, bne_iff_ne, ne_eq]
              exact hn
            · obtain ⟨hn, rfl⟩ := mem_ite_nil hx
              simp only [projFieldWF]
              exact strListField_wf hn (toolKeywords_ne ht)
  | null => simp [projEntry] at h
  | bool b => simp [projEntry] at h
  | num n => simp [projEntry] at h
  | str s => simp [projEntry] at h
  | arr xs => simp [projEntry] at h

/-- Every entry of a successful education conversion is well-formed. -/
theorem convert_education_wf {v : JValue} {ys : List JValue}
    (h : convert_education v = .ok ys) : ∀ j ∈ ys, eduWF j = true := by
  simp only [convert_education] at h
  cases hx : pyIterOrEmpty v with
  | error e => simp [hx] at h
  | ok entries =>
    simp only [hx, Except.ok.injEq] at h
    subst h
    intro j hj
    obtain ⟨e, _, he⟩ := List.mem_filterMap.mp hj
    exact eduEntry_wf he

/-- Every entry the experience loop emits is well-formed. -/
theorem expList_wf : ∀ {xs ys : List JValue}, expList xs = .ok ys →
    ∀ j ∈ ys, workWF j = true := by
  intro xs
  induction xs with
  | nil =>
    intro ys h j hj
    simp only [expList, Except.ok.injEq] at h
    subst h
    cases hj
  | cons e rest ih =>
    intro ys h j hj
    simp only [expList] at h
    cases ho : expEntry e with
    | error er => simp [ho] at h
    | ok o =>
      simp only [ho] at h
      cases hr : expList rest with
      | error er => simp [hr] at h
      | ok others =>
        simp only [hr, Except.ok.injEq] at h
        cases o with
        | none =>
          subst h
          exact ih hr j hj
        | some j0 =>
          subst h
          rcases List.mem_cons.mp hj with rfl | hj2
          · exact expEntry_wf ho
          · exact ih hr j hj2

/-- Every entry the projects loop emits is well-formed. -/
theorem projList_wf : ∀ {xs ys : List JValue}, projList xs = .ok ys →
    ∀ j ∈ ys, projWF j = true := by
  intro xs
  induction xs with
  | nil =>
    intro ys h j hj
    simp only [projList, Except.ok.injEq] at h
    subst h
    cases hj
  | cons e rest ih =>
    intro ys h j hj
    simp only [projList] at h
    cases ho : projEntry e with
    | error er => simp [ho] at h
    | ok o =>
      simp only [ho] at h
      cases hr : projList rest with
      | error er => simp [hr] at h
      | ok others =>
        simp only [hr, Except.ok.injEq] at h
        cases o with
        | none =>
          subst h
          exact ih hr j hj
        | some j0 =>
          subst h
          rcases List.mem_cons.mp hj with rfl | hj2
          · exact projEntry_wf ho
          · exact ih hr j hj2

/-- Every entry of a successful experience conversion is well-formed. -/
theorem convert_experience_wf {v : JValue} {ys : List JValue}
    (h : convert_experience v = .ok ys) : ∀ j ∈ ys, workWF j = true := by
  simp only [convert_experience] at h
  cases hx : pyIterOrEmpty v with
  | error e => simp [hx] at h
  | ok entries =>
    simp only [hx] at h
    exact expList_wf h

/-- Every entry of a successful projects conversion is well-formed. -/
theorem convert_projects_wf {v : JValue} {ys : List JValue}
    (h : convert_projects v = .ok ys) : ∀ j ∈ ys, projWF j = true := by
  simp only [convert_projects] at h
  cases hx : pyIterOrEmpty v with
  | error e => simp [hx] at h
  | ok entries =>
    simp only [hx] at h
    exact projList_wf h

/-- Keywords produced by the claim-side keyword extraction are
non-empty. -/
theorem skillKeywordsSpec_ne : ∀ {v : JValue} {s : String},
    s ∈ skillKeywordsSpec v → s ≠ "" := by
  intro v s h
  cases v with
  | arr xs => exact mem_filter_ne h
  | null => exact mem_filter_ne h
  | bool b => exact mem_filter_ne h
  | num n => exact mem_filter_ne h
  | str t => exact mem_filter_ne h
  | obj kvs => exact mem_filter_ne h

/-- Every skills entry the claim-side item conversion emits is
well-formed. -/
theorem specSkillItem_wf : ∀ {kv : String × JValue} {j : JValue},
    specSkillItem kv = some j → skillWF j = true := by
  intro kv j h
  obtain ⟨k, v⟩ := kv
  have hmain : ∀ (w : JValue), (w = JValue.null → False) →
      specSkillItem (k, w) = some j → skillWF j = true := by
    intro w hw hsome
    have hw2 : specSkillItem (k, w) =
        (if (skillKeywordsSpec w).isEmpty then none
         else some (.obj
          [("name", .str (pyTitle (String.mk (k.data.map (fun c => if c == '_' then ' ' else c))))),
           ("level", .str ""),
           ("keywords", .arr ((skillKeywordsSpec w).map JValue.str))])) := by
      cases w with
      | null => exact absurd rfl hw
      | bool b => rfl
      | num n => rfl
      | str t => rfl
      | arr xs => rfl
      | obj kvs => rfl
    rw [hw2] at hsome
    split at hsome
    · exact absurd hsome (by simp)
    · rename_i hne
      simp only [Option.some.injEq] at hsome
      subst hsome
      simp only [skillWF, Bool.and_eq_true]
      refine ⟨⟨rfl, ?_⟩, ?_⟩
      · cases hks : skillKeywordsSpec w with
        | nil => exact absurd (by rw [hks]; rfl) hne
        | cons a as => rfl
      · rw [List.all_eq_true]
        intro x hx
        obtain ⟨s, hs, rfl⟩ := List.mem_map.mp hx
        simp only [neStr, bne_iff_ne, ne_eq]
        exact skillKeywordsSpec_ne hs
  cases v with
  | null => simp [specSkillItem] at h
  | bool b => exact hmain _ (by intro hh; cases hh) h
  | num n => exact hmain _ (by intro hh; cases hh) h
  | str t => exact hmain _ (by intro hh; cases hh) h
  | arr xs => exact hmain _ (by intro hh; cases hh) h
  | obj kvs => exact hmain _ (by intro hh; cases hh) h

/-- Every entry of the skills conversion is well-formed. -/
theorem convert_skills_wf : ∀ (v : JValue), ∀ j ∈ convert_skills v, skillWF j = true := by
  intro v j hj
  cases v with
  | obj kvs =>
    rw [show convert_skills (.obj kvs) = skillsLoop (dictItems kvs) from rfl,
      skillsLoop_eq_spec] at hj
    obtain ⟨kv, _, hkv⟩ := List.mem_filterMap.mp hj
    exact specSkillItem_wf hkv
  | null => cases hj
  | bool b => cases hj
  | num n => cases hj
  | str s => cases hj
  | arr xs => cases hj

/-- Claim C6 (amended): every document the conversion outputs has exactly
the six top-level keys with the four section arrays, and every present
field is non-empty - except `basics.name` (always present, possibly
empty), the `region` of `basics.location` (empty when only a city was
parsed), a profile `username` (empty when no path segment survives), a
skills `level` (always the empty string), and a skills `name` coming from
an empty category key. -/
theorem c6_amended :
    ∀ v : JValue,
      (match to_json_resume v with
       | .ok out => resumeWF out
       | .error _ => true) = true := by
  intro v
  cases v with
  | obj data =>
    simp only [to_json_resume]
    cases he : convert_education (orDefault (getOrNull data "education") (.arr [])) with
    | error e => simp [he]
    | ok eduOut =>
      simp only [he]
      cases hw : convert_experience (orDefault (getOrNull data "experience") (.arr [])) with
      | error e => simp [hw]
      | ok workOut =>
        simp only [hw]
        cases hp : convert_projects (orDefault (getOrNull data "projects") (.arr [])) with
        | error e => simp [hp]
        | ok projOut =>
          simp only [hp]
          simp only [resumeWF, Bool.and_eq_true]
          refine ⟨⟨⟨⟨⟨?_, ?_⟩, ?_⟩, ?_⟩, ?_⟩, ?_⟩
          · exact beq_self_eq_true schemaURI
          · exact convert_basics_wf _
          · rw [List.all_eq_true]
            exact convert_experience_wf hw
          · rw [List.all_eq_true]
            exact convert_education_wf he
          · rw [List.all_eq_true]
            exact convert_skills_wf _
          · rw [List.all_eq_true]
            exact convert_projects_wf hp
  | null => rfl
  | bool b => rfl
  | num n => rfl
  | str s => rfl
  | arr xs => rfl

/-- `locBindings` distributes over append. -/
theorem locBindings_append (a b : List (String × JValue)) :
    locBindings (a ++ b) = locBindings a ++ locBindings b := by
  simp [locBindings, List.filter_append]

/-- A guarded binding under a non-location key contributes no location
binding. -/
theorem locBindings_guard_other {c : Prop} [Decidable c] {k : String} {v : JValue}
    (hk : (k == "location") = false) :
    locBindings (if c then [] else [(k, v)]) = [] := by
  by_cases hc : c <;> simp [hc, locBindings, List.filter_cons, hk]

/-- A guarded location binding survives `locBindings` unchanged. -/
theorem locBindings_guard_loc {c : Prop} [Decidable c] {v : JValue} :
    locBindings (if c then ([] : List (String × JValue)) else [("location", v)]) =
      (if c then [] else [("location", v)]) := by
  by_cases hc : c <;> simp [hc, locBindings, List.filter_cons]

/-- An emit-when-present location binding survives `locBindings`
unchanged. -/
theorem locBindings_guard2_loc {c : Prop} [Decidable c] {v : JValue} :
    locBindings (if c then [("location", v)] else ([] : List (String × JValue))) =
      (if c then [("location", v)] else []) := by
  by_cases hc : c <;> simp [hc, locBindings, List.filter_cons]

/-- A leading non-location binding contributes no location binding. -/
theorem locBindings_cons_other {k : String} {v : JValue} {l : List (String × JValue)}
    (hk : (k == "location") = false) :
    locBindings ((k, v) :: l) = locBindings l := by
  simp [locBindings, List.filter_cons, hk]

/-- Claim C10: the city/region splitter is applied only to
`basics.location` (whose output binding is the split city/region object);
education and experience entries emit the coerced raw location string
verbatim as their sole string-valued `location` binding exactly when it is
non-empty, never split; and project entries never emit a `location`
binding at all. -/
theorem c10_location_usage :
    (∀ kvs : List (String × JValue), eduLocOk kvs) ∧
    (∀ kvs : List (String × JValue), expLocOk kvs) ∧
    (∀ kvs : List (String × JValue), projLocOk kvs) ∧
    (∀ v : JValue, basicsLocOk v) := by
  refine ⟨fun kvs => ?_, fun kvs => ?_, fun kvs => ?_, fun v => ?_⟩
  · simp only [eduLocOk, eduEntry]
    by_cases hemp : (eduBindings kvs).isEmpty = true
    · rw [if_pos hemp]
      trivial
    · rw [if_neg hemp]
      show locBindings (eduBindings kvs) =
        (if strField kvs "location" = "" then []
         else [("location", JValue.str (strField kvs "location"))])
      simp [eduBindings, locBindings_append, locBindings_guard_other,
        locBindings_guard_loc]
  · simp only [expLocOk, expEntry]
    cases hb : bulletTexts kvs with
    | error e => trivial
    | ok highlights =>
      cases ht : toolKeywords kvs with
      | error e => trivial
      | ok toolKw =>
        dsimp only
        by_cases hemp : (expBindings kvs highlights toolKw).isEmpty = true
        · rw [if_pos hemp]
          trivial
        · rw [if_neg hemp]
          show locBindings (expBindings kvs highlights toolKw) =
            (if strField kvs "location" = "" then []
             else [("location", JValue.str (strField kvs "location"))])
          simp [expBindings, locBindings_append, locBindings_guard_other,
            locBindings_guard_loc]
  · simp only [projLocOk, projEntry]
    cases hb : bulletTexts kvs with
    | error e => trivial
    | ok highlights =>
      cases ht : toolKeywords kvs with
      | error e => trivial
      | ok toolKw =>
        dsimp only
        by_cases hemp : (projBindings kvs highlights toolKw).isEmpty = true
        · rw [if_pos hemp]
          trivial
        · rw [if_neg hemp]
          show locBindings (projBindings kvs highlights toolKw) = []
          simp [projBindings, locBindings_append, locBindings_guard_other]
  · simp only [basicsLocOk, convert_basics, List.singleton_append, List.cons_append,
      List.nil_append]
    rw [locBindings_cons_other (by rfl)]
    simp [locBindings_append, locBindings_guard_other, locBindings_guard2_loc]
